import Mathlib

set_option maxRecDepth 4000

/-!
Verification of the PRT-7 decoder (src/main.cpp).

The program decodes line-delimited frames with a rotating substitution
cipher.  The rotor (class RotorDeMapeo) is a circular doubly linked list of
the 26 letters A..Z; we embed it as the Lean list of its characters read
from the head node following the siguiente pointers.  Moving the head to
siguiente is rotorNext, moving it to previo is rotorPrev.  C ints are
32-bit two's complement; arithmetic that can overflow is modelled by
wrapping with wrap32.
-/

/-- Alphabet installed by the RotorDeMapeo constructor (main.cpp:74-91):
the 26 uppercase letters in order, head on the letter A. -/
def alfabeto : List Char := "ABCDEFGHIJKLMNOPQRSTUVWXYZ".toList

/-- Two's-complement wrap of a 32-bit signed int; models overflow of C
int arithmetic. -/
def wrap32 (n : Int) : Int := (n + 2 ^ 31) % 2 ^ 32 - 2 ^ 31

/-- One step cabeza = cabeza->siguiente of the circular rotor list, seen on
the list read from the head. -/
def rotorNext : List Char → List Char
  | [] => []
  | c :: cs => cs ++ [c]

/-- One step cabeza = cabeza->previo of the circular rotor list, seen on
the list read from the head. -/
def rotorPrev (l : List Char) : List Char :=
  match l.getLast? with
  | none => []
  | some c => c :: l.dropLast

/-- RotorDeMapeo::rotar (main.cpp:114-128).  N == 0 returns at once; N > 0
advances the head N times; otherwise the code negates N (which for
INT_MIN wraps back to INT_MIN, so the following loop runs zero times) and
steps backwards that many times. -/
def rotar (l : List Char) (N : Int) : List Char :=
  if N = 0 then l
  else if 0 < N then rotorNext^[N.toNat] l
  else rotorPrev^[(wrap32 (-N)).toNat] l

/-- RotorDeMapeo::getMapeo (main.cpp:135-165).  Space is returned as is,
characters outside A..Z are passed through, and for a letter the code
walks posicionDelCaracter = in - 'A' siguiente steps from the head.  The
C comparison of chars is numeric, hence the toNat comparisons.  The getD
default is never reached: the walk stays on the 26-node circle. -/
def getMapeo (l : List Char) (c : Char) : Char :=
  if c = ' ' then ' '
  else if c.toNat < 'A'.toNat ∨ 'Z'.toNat < c.toNat then c
  else l.getD (c.toNat - 'A'.toNat) c

/-- Result of parsearLinea: a load frame (TramaLoad) or a rotation frame
(TramaMap). -/
inductive Trama where
  | load (c : Char)
  | map (n : Int)
deriving DecidableEq

/-- Digit-accumulation loop of parsearLinea (main.cpp:441-444): consumes
leading decimal digits, accumulating numero = numero * 10 + digit with
32-bit wrap, counting how many digits were consumed, and returns the
remaining characters. -/
def leerDigitos : List Char → Int → Nat → Int × Nat × List Char
  | [], numero, cuenta => (numero, cuenta, [])
  | c :: cs, numero, cuenta =>
    if '0'.toNat ≤ c.toNat ∧ c.toNat ≤ '9'.toNat then
      leerDigitos cs (wrap32 (numero * 10 + ((c.toNat : Int) - ('0'.toNat : Int)))) (cuenta + 1)
    else (numero, cuenta, c :: cs)

/-- parsearLinea (main.cpp:413-456).  Lines shorter than 3 characters and
lines without a comma at index 1 are rejected; tag L yields a load of the
character at index 2; tag M reads an optional minus sign and then digits,
rejecting when no digit was consumed (the C test indice == 2 or
signo == -1 and indice == 3); any other tag is rejected.  All rejections
are the single value none (the C nullptr). -/
def parsearLinea (linea : List Char) : Option Trama :=
  if linea.length < 3 then none
  else
    let tipo := linea.getD 0 (Char.ofNat 0)
    if linea.getD 1 (Char.ofNat 0) ≠ ',' then none
    else if tipo = 'L' then some (Trama.load (linea.getD 2 (Char.ofNat 0)))
    else if tipo = 'M' then
      let resto := linea.drop 2
      let signo : Int := if resto.headD (Char.ofNat 0) = '-' then -1 else 1
      let cuerpo := if resto.headD (Char.ofNat 0) = '-' then resto.drop 1 else resto
      let resultado := leerDigitos cuerpo 0 0
      if resultado.2.1 = 0 then none
      else some (Trama.map (wrap32 (resultado.1 * signo)))
    else none

/-- ListaDeCarga::insertarAlFinal (main.cpp:201-212): append one character
at the tail of the message list. -/
def insertarAlFinal (l : List Char) (dato : Char) : List Char := l ++ [dato]

/-- ListaDeCarga::imprimirMensaje (main.cpp:217-224): emit the stored
characters from head to tail as one string. -/
def imprimirMensaje (l : List Char) : String := String.mk l

/-- State owned by main: the message list and the rotor list. -/
structure Sesion where
  carga : List Char
  rotor : List Char
deriving DecidableEq

/-- TramaLoad::procesar and TramaMap::procesar (main.cpp:273-278,305-313):
a load frame decodes its character through the rotor and appends it, a map
frame rotates the rotor. -/
def procesar (t : Trama) (s : Sesion) : Sesion :=
  match t with
  | Trama.load c => { s with carga := insertarAlFinal s.carga (getMapeo s.rotor c) }
  | Trama.map n => { s with rotor := rotar s.rotor n }

/-- One iteration of the main loop (main.cpp:497-534) on one line: empty
lines and lines starting with I are skipped, a line starting with the
three characters F I N terminates (second component true), otherwise the
line is parsed; a nullptr parse prints an error and continues with the
state unchanged, and a parsed frame is processed. -/
def pasoSesion (s : Sesion) (linea : List Char) : Sesion × Bool :=
  if linea = [] then (s, false)
  else if linea.getD 0 (Char.ofNat 0) = 'I' then (s, false)
  else if linea.getD 0 (Char.ofNat 0) = 'F' ∧ linea.getD 1 (Char.ofNat 0) = 'I' ∧
      linea.getD 2 (Char.ofNat 0) = 'N' then (s, true)
  else
    match parsearLinea linea with
    | none => (s, false)
    | some t => (procesar t s, false)

/-- Run of the main loop over a list of incoming lines, stopping early
when a line signals termination. -/
def corre : List (List Char) → Sesion → Sesion
  | [], s => s
  | linea :: resto, s =>
    let paso := pasoSesion s linea
    if paso.2 then paso.1 else corre resto paso.1

/-- Session state right after main constructs miListaDeCarga and
miRotorDeMapeo (main.cpp:472-473). -/
def sesionInicial : Sesion := { carga := [], rotor := alfabeto }

/-- Rotor states reachable from the freshly constructed rotor by any
sequence of rotar calls (getMapeo never mutates the rotor, so it
contributes no step). -/
inductive Reachable : List Char → Prop where
  | init : Reachable alfabeto
  | step (N : Int) {l : List Char} : Reachable l → Reachable (rotar l N)

/-- Mathematical (unbounded) value of a decimal digit string, used to
state what the digit loop computes when no overflow occurs. -/
def natVal (ds : List Char) : Nat := ds.foldl (fun a c => a * 10 + (c.toNat - '0'.toNat)) 0

/-! General lemmas about the rotor embedding. -/

lemma alfabeto_length : alfabeto.length = 26 := rfl

lemma rotorNext_eq_rotate (l : List Char) : rotorNext l = l.rotate 1 := by
  cases l with
  | nil => simp [rotorNext]
  | cons c cs => simp [rotorNext, List.rotate_cons_succ]

lemma rotorNext_iterate (l : List Char) (n : Nat) : rotorNext^[n] l = l.rotate n := by
  induction n generalizing l with
  | zero => simp
  | succ n ih =>
    rw [Function.iterate_succ_apply, ih, rotorNext_eq_rotate, List.rotate_rotate,
      Nat.add_comm]

lemma rotorNext_rotorPrev (l : List Char) (h : l ≠ []) : rotorNext (rotorPrev l) = l := by
  obtain rfl | ⟨l2, a, rfl⟩ := l.eq_nil_or_concat
  · exact absurd rfl h
  · simp [rotorPrev, rotorNext]

lemma rotate_alfabeto_congr {a b : Nat} (h : a % 26 = b % 26) :
    alfabeto.rotate a = alfabeto.rotate b := by
  have ha := List.rotate_mod alfabeto a
  have hb := List.rotate_mod alfabeto b
  rw [alfabeto_length] at ha hb
  rw [← ha, ← hb, h]

lemma rotorPrev_rotate (k : Nat) : rotorPrev (alfabeto.rotate k) = alfabeto.rotate (k + 25) := by
  have h1 : rotorNext (rotorPrev (alfabeto.rotate k)) = alfabeto.rotate k := by
    apply rotorNext_rotorPrev
    intro hc
    have hlen := congrArg List.length hc
    rw [List.length_rotate, alfabeto_length] at hlen
    simp at hlen
  have h2 : rotorNext (alfabeto.rotate (k + 25)) = alfabeto.rotate k := by
    rw [rotorNext_eq_rotate, List.rotate_rotate]
    exact rotate_alfabeto_congr (by omega)
  have h3 : (rotorPrev (alfabeto.rotate k)).rotate 1 = (alfabeto.rotate (k + 25)).rotate 1 := by
    rw [← rotorNext_eq_rotate, ← rotorNext_eq_rotate, h1, h2]
  exact List.rotate_eq_rotate.mp h3

lemma rotorPrev_iterate (k m : Nat) :
    rotorPrev^[m] (alfabeto.rotate k) = alfabeto.rotate (k + 25 * m) := by
  induction m generalizing k with
  | zero => simp
  | succ m ih =>
    rw [Function.iterate_succ_apply, rotorPrev_rotate, ih]
    exact rotate_alfabeto_congr (by omega)

lemma wrap32_eq {n : Int} (h1 : -2 ^ 31 ≤ n) (h2 : n < 2 ^ 31) : wrap32 n = n := by
  unfold wrap32
  omega

lemma rotar_rotate (k : Nat) (N : Int) (h1 : -2 ^ 31 < N) (h2 : N < 2 ^ 31) :
    rotar (alfabeto.rotate k) N = alfabeto.rotate (((k : Int) + N) % 26).toNat := by
  unfold rotar
  rcases lt_trichotomy N 0 with hneg | hzero | hpos
  · rw [if_neg (by omega), if_neg (by omega), wrap32_eq (by omega) (by omega),
      rotorPrev_iterate]
    exact rotate_alfabeto_congr (by omega)
  · subst hzero
    rw [if_pos rfl]
    exact rotate_alfabeto_congr (by omega)
  · rw [if_neg (by omega), if_pos hpos, rotorNext_iterate, List.rotate_rotate]
    exact rotate_alfabeto_congr (by omega)

lemma rotar_rotate_any (k : Nat) (N : Int) :
    ∃ j, j < 26 ∧ rotar (alfabeto.rotate k) N = alfabeto.rotate j := by
  unfold rotar
  rcases lt_trichotomy N 0 with hneg | hzero | hpos
  · rw [if_neg (by omega), if_neg (by omega), rotorPrev_iterate]
    exact ⟨(k + 25 * (wrap32 (-N)).toNat) % 26, Nat.mod_lt _ (by omega),
      rotate_alfabeto_congr (by omega)⟩
  · subst hzero
    rw [if_pos rfl]
    exact ⟨k % 26, Nat.mod_lt _ (by omega), rotate_alfabeto_congr (by omega)⟩
  · rw [if_neg (by omega), if_pos hpos, rotorNext_iterate, List.rotate_rotate]
    exact ⟨(k + N.toNat) % 26, Nat.mod_lt _ (by omega), rotate_alfabeto_congr (by omega)⟩

lemma getMapeo_rotate (k : Nat) (c : Char) (h1 : 'A'.toNat ≤ c.toNat)
    (h2 : c.toNat ≤ 'Z'.toNat) :
    getMapeo (alfabeto.rotate k) c =
      alfabeto.getD ((k + (c.toNat - 'A'.toNat)) % 26) ' ' := by
  have hA : 'A'.toNat = 65 := rfl
  have hZ : 'Z'.toNat = 90 := rfl
  rw [hA] at h1
  rw [hZ] at h2
  have hc : c ≠ ' ' := by
    intro h
    subst h
    revert h1
    decide
  unfold getMapeo
  rw [if_neg hc, if_neg (by rw [hA, hZ]; omega)]
  have hplen : c.toNat - 'A'.toNat < alfabeto.length := by rw [alfabeto_length, hA]; omega
  have h26 : (k + (c.toNat - 'A'.toNat)) % 26 < alfabeto.length := by
    rw [alfabeto_length]; omega
  have hidx : (c.toNat - 'A'.toNat + k) % alfabeto.length =
      (k + (c.toNat - 'A'.toNat)) % 26 := by
    rw [alfabeto_length]; omega
  rw [List.getD_eq_getD_get?, List.getD_eq_getD_get?, List.get?_rotate hplen, hidx,
    List.get?_eq_get h26]
  rfl

/-! Lemmas about the frame parser. -/

lemma parsearLinea_M_unfold (t : List Char) (h : ¬(('M' :: ',' :: t).length < 3)) :
    parsearLinea ('M' :: ',' :: t) =
      (if (leerDigitos (if t.headD (Char.ofNat 0) = '-' then t.drop 1 else t) 0 0).2.1 = 0
       then none
       else some (Trama.map (wrap32
         ((leerDigitos (if t.headD (Char.ofNat 0) = '-' then t.drop 1 else t) 0 0).1 *
           (if t.headD (Char.ofNat 0) = '-' then (-1 : Int) else 1))))) := by
  simp only [parsearLinea]
  rw [if_neg h]
  rw [if_neg (show ¬(('M' :: ',' :: t).getD 1 (Char.ofNat 0) ≠ ',') from by
    intro hc; exact hc rfl)]
  rw [if_neg (show ¬(('M' :: ',' :: t).getD 0 (Char.ofNat 0) = 'L') from by
    rw [show ('M' :: ',' :: t).getD 0 (Char.ofNat 0) = 'M' from rfl]
    decide)]
  rw [if_pos (show ('M' :: ',' :: t).getD 0 (Char.ofNat 0) = 'M' from rfl)]
  rfl

lemma leerDigitos_append (ds resto : List Char) (numero : Int) (cuenta : Nat)
    (hds : ∀ c ∈ ds, '0'.toNat ≤ c.toNat ∧ c.toNat ≤ '9'.toNat)
    (hr : ∀ c ∈ resto.head?, ¬('0'.toNat ≤ c.toNat ∧ c.toNat ≤ '9'.toNat)) :
    leerDigitos (ds ++ resto) numero cuenta =
      (ds.foldl (fun a c => wrap32 (a * 10 + ((c.toNat : Int) - ('0'.toNat : Int)))) numero,
        cuenta + ds.length, resto) := by
  induction ds generalizing numero cuenta with
  | nil =>
    cases resto with
    | nil => simp [leerDigitos]
    | cons r rs =>
      have hrr := hr r (by simp)
      simp only [List.nil_append, leerDigitos, if_neg hrr, List.foldl_nil, List.length_nil,
        Nat.add_zero]
  | cons d ds ih =>
    have hd := hds d (List.mem_cons_self d ds)
    simp only [List.cons_append, leerDigitos, if_pos hd, List.append_eq]
    rw [ih (wrap32 (numero * 10 + ((d.toNat : Int) - ('0'.toNat : Int)))) (cuenta + 1)
      (fun c hc => hds c (List.mem_cons_of_mem d hc))]
    simp only [List.foldl_cons, List.length_cons, Prod.mk.injEq]
    exact ⟨trivial, by omega, trivial⟩

lemma parsearLinea_M_pos (ds resto : List Char) (hne : ds ≠ [])
    (hds : ∀ c ∈ ds, '0'.toNat ≤ c.toNat ∧ c.toNat ≤ '9'.toNat)
    (hr : ∀ c ∈ resto.head?, ¬('0'.toNat ≤ c.toNat ∧ c.toNat ≤ '9'.toNat)) :
    parsearLinea ('M' :: ',' :: (ds ++ resto)) =
      some (Trama.map (wrap32
        (ds.foldl (fun a c => wrap32 (a * 10 + ((c.toNat : Int) - ('0'.toNat : Int)))) 0))) := by
  obtain ⟨d, ds2, rfl⟩ := List.exists_cons_of_ne_nil hne
  have hd := hds d (List.mem_cons_self d ds2)
  rw [show ((d :: ds2) ++ resto) = d :: (ds2 ++ resto) from rfl]
  rw [parsearLinea_M_unfold (d :: (ds2 ++ resto))
    (by simp only [List.length_cons]; omega)]
  have hdne : ¬((d :: (ds2 ++ resto)).headD (Char.ofNat 0) = '-') := by
    simp only [List.headD_cons]
    intro hc
    subst hc
    revert hd
    decide
  rw [if_neg hdne, if_neg hdne]
  rw [show d :: (ds2 ++ resto) = (d :: ds2) ++ resto from rfl]
  rw [leerDigitos_append _ _ _ _ hds hr]
  rw [if_neg (by simp)]
  rw [mul_one]

lemma parsearLinea_M_neg (ds resto : List Char) (hne : ds ≠ [])
    (hds : ∀ c ∈ ds, '0'.toNat ≤ c.toNat ∧ c.toNat ≤ '9'.toNat)
    (hr : ∀ c ∈ resto.head?, ¬('0'.toNat ≤ c.toNat ∧ c.toNat ≤ '9'.toNat)) :
    parsearLinea ('M' :: ',' :: '-' :: (ds ++ resto)) =
      some (Trama.map (wrap32
        ((ds.foldl (fun a c => wrap32 (a * 10 + ((c.toNat : Int) - ('0'.toNat : Int)))) 0) *
          (-1)))) := by
  obtain ⟨d, ds2, rfl⟩ := List.exists_cons_of_ne_nil hne
  rw [parsearLinea_M_unfold ('-' :: ((d :: ds2) ++ resto))
    (by simp only [List.length_cons]; omega)]
  have hdneg : (('-' :: ((d :: ds2) ++ resto)).headD (Char.ofNat 0) = '-') := rfl
  rw [if_pos hdneg, if_pos hdneg]
  rw [show ('-' :: ((d :: ds2) ++ resto)).drop 1 = (d :: ds2) ++ resto from rfl]
  rw [leerDigitos_append _ _ _ _ hds hr]
  rw [if_neg (by simp)]

lemma natVal_foldl_le (a : Nat) (ds : List Char) :
    a ≤ ds.foldl (fun x c => x * 10 + (c.toNat - '0'.toNat)) a := by
  induction ds generalizing a with
  | nil => simp
  | cons d ds ih =>
    simp only [List.foldl_cons]
    exact le_trans (by omega) (ih (a * 10 + (d.toNat - '0'.toNat)))

lemma foldl_wrap_eq_natVal (ds : List Char) (a : Nat)
    (hds : ∀ c ∈ ds, '0'.toNat ≤ c.toNat ∧ c.toNat ≤ '9'.toNat)
    (hsmall : ds.foldl (fun x c => x * 10 + (c.toNat - '0'.toNat)) a < 2 ^ 31) :
    ds.foldl (fun x c => wrap32 (x * 10 + ((c.toNat : Int) - ('0'.toNat : Int)))) (a : Int) =
      ((ds.foldl (fun x c => x * 10 + (c.toNat - '0'.toNat)) a : Nat) : Int) := by
  induction ds generalizing a with
  | nil => simp
  | cons d ds ih =>
    have hd := hds d (List.mem_cons_self d ds)
    simp only [List.foldl_cons] at hsmall ⊢
    have hstep : a * 10 + (d.toNat - '0'.toNat) < 2 ^ 31 :=
      lt_of_le_of_lt (natVal_foldl_le _ ds) hsmall
    have h0 : '0'.toNat = 48 := rfl
    have hcast : (a : Int) * 10 + ((d.toNat : Int) - ('0'.toNat : Int)) =
        ((a * 10 + (d.toNat - '0'.toNat) : Nat) : Int) := by
      rw [h0] at hd ⊢
      push_cast
      omega
    rw [hcast, wrap32_eq (by omega) (by exact_mod_cast hstep)]
    exact ih _ (fun c hc => hds c (List.mem_cons_of_mem d hc)) hsmall

lemma leerDigitos_no_digit (cs : List Char) (numero : Int) (cuenta : Nat)
    (h : ∀ c ∈ cs.head?, ¬('0'.toNat ≤ c.toNat ∧ c.toNat ≤ '9'.toNat)) :
    leerDigitos cs numero cuenta = (numero, cuenta, cs) := by
  cases cs with
  | nil => rfl
  | cons c cs2 => simp only [leerDigitos, if_neg (h c (by simp))]

lemma foldl_rotar (as : List Int) (k : Nat)
    (hrange : ∀ a ∈ as, -2 ^ 31 < a ∧ a < 2 ^ 31) :
    as.foldl rotar (alfabeto.rotate k) = alfabeto.rotate (((k : Int) + as.sum) % 26).toNat := by
  induction as generalizing k with
  | nil =>
    simp only [List.foldl_nil, List.sum_nil]
    exact rotate_alfabeto_congr (by omega)
  | cons a as ih =>
    have ha := hrange a (List.mem_cons_self a as)
    simp only [List.foldl_cons, List.sum_cons]
    rw [rotar_rotate k a ha.1 ha.2]
    rw [ih _ (fun x hx => hrange x (List.mem_cons_of_mem a hx))]
    exact rotate_alfabeto_congr (by omega)

lemma foldl_insertarAlFinal (cs acc : List Char) :
    cs.foldl insertarAlFinal acc = acc ++ cs := by
  induction cs generalizing acc with
  | nil => simp
  | cons c cs ih =>
    simp only [List.foldl_cons]
    rw [ih]
    simp [insertarAlFinal]

/-! Claim theorems. -/

/-- C1: for every rotor state (head offset k over the fixed alphabet) and
every character, getMapeo returns the space unchanged, returns any
character outside A..Z unchanged, and maps a letter with offset
p = c - 'A' to the letter at fixed-alphabet position (k + p) mod 26. -/
theorem C1_decode (k : Nat) (c : Char) :
    getMapeo (alfabeto.rotate k) ' ' = ' ' ∧
    (¬('A'.toNat ≤ c.toNat ∧ c.toNat ≤ 'Z'.toNat) → getMapeo (alfabeto.rotate k) c = c) ∧
    ('A'.toNat ≤ c.toNat → c.toNat ≤ 'Z'.toNat →
      getMapeo (alfabeto.rotate k) c = alfabeto.getD ((k + (c.toNat - 'A'.toNat)) % 26) ' ') := by
  refine ⟨?_, ?_, ?_⟩
  · unfold getMapeo
    rw [if_pos rfl]
  · intro h
    rw [show 'A'.toNat = 65 from rfl, show 'Z'.toNat = 90 from rfl] at h
    unfold getMapeo
    by_cases hsp : c = ' '
    · rw [if_pos hsp]
      exact hsp.symm
    · rw [if_neg hsp,
        if_pos (show c.toNat < 'A'.toNat ∨ 'Z'.toNat < c.toNat from by
          rw [show 'A'.toNat = 65 from rfl, show 'Z'.toNat = 90 from rfl]
          omega)]
  · intro h1 h2
    exact getMapeo_rotate k c h1 h2

/-- Witness for C1 at k = 1 and c = B. -/
theorem C1_decode_witness :
    getMapeo (alfabeto.rotate 1) 'B' = alfabeto.getD ((1 + ('B'.toNat - 'A'.toNat)) % 26) ' ' :=
  (C1_decode 1 'B').2.2 (by decide) (by decide)

/-- C2 as stated is false: at the most negative 32-bit amount the C code
negates N, which wraps back to INT_MIN, so the backward loop runs zero
times and the head does not move, while the claimed target position is
(0 + (-2^31)) mod 26 = 2. -/
theorem C2_rotate_counterexample :
    rotar alfabeto (-2 ^ 31) ≠ alfabeto.rotate ((((0 : Int) + (-2 ^ 31)) % 26).toNat) := by
  decide

/-- C2 (amended): for every 32-bit amount other than INT_MIN = -2^31,
rotar moves the head from offset k to (k + amount) mod 26 with no bounds
error, and amount 0 is a no-op. -/
theorem C2_rotate_mod (k : Nat) (N : Int) (h1 : -2 ^ 31 < N) (h2 : N < 2 ^ 31) :
    rotar (alfabeto.rotate k) N = alfabeto.rotate (((k : Int) + N) % 26).toNat ∧
    rotar (alfabeto.rotate k) 0 = alfabeto.rotate k :=
  ⟨rotar_rotate k N h1 h2, by simp [rotar]⟩

/-- Witness for C2 (amended) at k = 0 and N = 3. -/
theorem C2_rotate_mod_witness :
    rotar (alfabeto.rotate 0) 3 = alfabeto.rotate ((((0 : Nat) : Int) + 3) % 26).toNat ∧
    rotar (alfabeto.rotate 0) 0 = alfabeto.rotate 0 :=
  C2_rotate_mod 0 3 (by decide) (by decide)

/-- C3 as stated is false: parsearLinea signals every rejection with the
single value none (the C nullptr), so at the concrete inputs "X,5"
(unknown tag), "M,-" (rotation frame without digits) and "AB" (malformed
shape) the produced errors are one and the same value, not three
distinct kinds. -/
theorem C3_error_kinds_counterexample :
    parsearLinea (String.toList "X,5") = parsearLinea (String.toList "M,-") ∧
    parsearLinea (String.toList "M,-") = parsearLinea (String.toList "AB") ∧
    parsearLinea (String.toList "X,5") = none := by
  decide

/-- C3 (amended): parse rejects the three classes of bad input with one
undistinguished error value none: a well-shaped line whose tag is neither
L nor M, an M frame with no digits after the optional sign, and any line
that is too short or lacks the comma; every rejection is non-fatal, since
on a parse error the session step leaves the state unchanged and does not
terminate (unless the line is the FIN control signal, which never parses
anyway). -/
theorem C3_rejection_nonfatal (s : Sesion) (linea : List Char) :
    (3 ≤ linea.length → linea.getD 1 (Char.ofNat 0) = ',' →
      linea.getD 0 (Char.ofNat 0) ≠ 'L' → linea.getD 0 (Char.ofNat 0) ≠ 'M' →
      parsearLinea linea = none) ∧
    (∀ t, linea = 'M' :: ',' :: t →
      (∀ c ∈ (if t.headD (Char.ofNat 0) = '-' then t.drop 1 else t).head?,
        ¬('0'.toNat ≤ c.toNat ∧ c.toNat ≤ '9'.toNat)) →
      parsearLinea linea = none) ∧
    ((linea.length < 3 ∨ linea.getD 1 (Char.ofNat 0) ≠ ',') → parsearLinea linea = none) ∧
    (parsearLinea linea = none →
      ¬(linea.getD 0 (Char.ofNat 0) = 'F' ∧ linea.getD 1 (Char.ofNat 0) = 'I' ∧
        linea.getD 2 (Char.ofNat 0) = 'N') →
      pasoSesion s linea = (s, false)) := by
  refine ⟨?_, ?_, ?_, ?_⟩
  · intro hlen hcomma hL hM
    simp only [parsearLinea]
    rw [if_neg (by omega), if_neg (fun hc => hc hcomma), if_neg hL, if_neg hM]
  · rintro t rfl hnd
    by_cases ht : t = []
    · subst ht
      decide
    · obtain ⟨c0, t2, rfl⟩ := List.exists_cons_of_ne_nil ht
      rw [parsearLinea_M_unfold (c0 :: t2) (by simp only [List.length_cons]; omega)]
      rw [leerDigitos_no_digit _ _ _ hnd]
      rw [if_pos rfl]
  · intro h
    rcases h with h | h
    · simp only [parsearLinea]
      rw [if_pos h]
    · by_cases hlen : linea.length < 3
      · simp only [parsearLinea]
        rw [if_pos hlen]
      · simp only [parsearLinea]
        rw [if_neg hlen, if_pos h]
  · intro hparse hFIN
    by_cases hnil : linea = []
    · simp only [pasoSesion]
      rw [if_pos hnil]
    · by_cases hI : linea.getD 0 (Char.ofNat 0) = 'I'
      · simp only [pasoSesion]
        rw [if_neg hnil, if_pos hI]
      · simp only [pasoSesion]
        rw [if_neg hnil, if_neg hI, if_neg hFIN, hparse]

/-- Witness for C3 (amended) at the unknown-tag line "X,5". -/
theorem C3_rejection_nonfatal_witness :
    parsearLinea (String.toList "X,5") = none ∧
    pasoSesion sesionInicial (String.toList "X,5") = (sesionInicial, false) := by
  have h1 := (C3_rejection_nonfatal sesionInicial (String.toList "X,5")).1 (by decide)
    (by decide) (by decide) (by decide)
  exact ⟨h1, (C3_rejection_nonfatal sesionInicial (String.toList "X,5")).2.2.2 h1 (by decide)⟩

/-- C4: acceptance of "L,A", "M,5", "M,-3" with the stated frames and
rejection of "M,", "M,-", "X,5", "AB" with no frame produced. -/
theorem C4_parse_cases :
    parsearLinea (String.toList "L,A") = some (Trama.load 'A') ∧
    parsearLinea (String.toList "M,5") = some (Trama.map 5) ∧
    parsearLinea (String.toList "M,-3") = some (Trama.map (-3)) ∧
    parsearLinea (String.toList "M,") = none ∧
    parsearLinea (String.toList "M,-") = none ∧
    parsearLinea (String.toList "X,5") = none ∧
    parsearLinea (String.toList "AB") = none := by
  decide

/-- C5: every rotor state reachable from the freshly built rotor by rotar
calls (getMapeo never mutates the rotor) is a rotation of the original
alphabet: the 26 letters, each once, in their original cyclic order, with
only the head offset k differing. -/
theorem C5_rotor_invariant (l : List Char) (h : Reachable l) :
    ∃ k, k < 26 ∧ l = alfabeto.rotate k := by
  induction h with
  | init => exact ⟨0, by omega, (alfabeto.rotate_zero).symm⟩
  | step N hl ih =>
    obtain ⟨k, hk, rfl⟩ := ih
    obtain ⟨j, hj, hrot⟩ := rotar_rotate_any k N
    exact ⟨j, hj, hrot⟩

/-- Witness for C5 at the state reached by rotating 30 then -4. -/
theorem C5_rotor_invariant_witness :
    ∃ k, k < 26 ∧ rotar (rotar alfabeto 30) (-4) = alfabeto.rotate k :=
  C5_rotor_invariant _ (Reachable.step (-4) (Reachable.step 30 Reachable.init))

/-- C6 as stated is false: the rotation sequence [-2^31, 24] has sum
congruent to 0 mod 26, yet decoding A before the sequence gives A and
after it gives Y, because rotating by INT_MIN moves the head zero
positions instead of -2^31 mod 26 = 2 positions. -/
theorem C6_invertibility_counterexample :
    ((-2 ^ 31 : Int) + 24) % 26 = 0 ∧
    getMapeo (rotar (rotar alfabeto (-2 ^ 31)) 24) 'A' ≠ getMapeo alfabeto 'A' := by
  decide

/-- C6 (amended): for every rotor state, every character and every finite
sequence of 32-bit rotation amounts none of which is INT_MIN = -2^31,
if the sum of the sequence is congruent to 0 mod 26 then decoding before
and after applying all the rotations gives the same character; in
particular rotate 0 leaves the rotor state, hence all later decodes,
unchanged. -/
theorem C6_invertibility (k : Nat) (c : Char) (as : List Int)
    (hrange : ∀ a ∈ as, -2 ^ 31 < a ∧ a < 2 ^ 31)
    (hsum : as.sum % 26 = 0) :
    getMapeo (as.foldl rotar (alfabeto.rotate k)) c = getMapeo (alfabeto.rotate k) c ∧
    rotar (alfabeto.rotate k) 0 = alfabeto.rotate k := by
  constructor
  · rw [foldl_rotar as k hrange]
    congr 1
    exact rotate_alfabeto_congr (by omega)
  · simp [rotar]

/-- Witness for C6 (amended) with the sequence [5, 21] of sum 26 at k = 0
and c = A. -/
theorem C6_invertibility_witness :
    getMapeo (([5, 21] : List Int).foldl rotar (alfabeto.rotate 0)) 'A' =
      getMapeo (alfabeto.rotate 0) 'A' ∧
    rotar (alfabeto.rotate 0) 0 = alfabeto.rotate 0 :=
  C6_invertibility 0 'A' [5, 21] (by decide) (by decide)

/-- C7: every M line whose maximal digit run is nonempty - with or
without a leading minus sign, and with any trailing suffix after the run
(empty, or beginning with a non-digit, the run being maximal) - parses to
a rotation frame; the digit accumulation and the final numero times signo
multiplication both wrap mod 2^32 on overflow, and the subsequent rotar
with the parsed amount keeps the rotor a rotation of the 26-letter
alphabet, so the session is not aborted and the invariant is not
corrupted. -/
theorem C7_overflow_safe (neg : Bool) (ds resto : List Char) (h1 : ds ≠ [])
    (h2 : ∀ c ∈ ds, '0'.toNat ≤ c.toNat ∧ c.toNat ≤ '9'.toNat)
    (h3 : ∀ c ∈ resto.head?, ¬('0'.toNat ≤ c.toNat ∧ c.toNat ≤ '9'.toNat)) :
    ∃ n : Int,
      parsearLinea ('M' :: ',' :: ((if neg then ['-'] else []) ++ (ds ++ resto))) =
        some (Trama.map n) ∧
      ∀ k : Nat, ∃ j, j < 26 ∧ rotar (alfabeto.rotate k) n = alfabeto.rotate j := by
  cases neg with
  | false =>
    have hno : ¬(false = true) := by decide
    rw [if_neg hno, List.nil_append]
    exact ⟨_, parsearLinea_M_pos ds resto h1 h2 h3, fun k => rotar_rotate_any k _⟩
  | true =>
    rw [if_pos rfl, List.singleton_append]
    exact ⟨_, parsearLinea_M_neg ds resto h1 h2 h3, fun k => rotar_rotate_any k _⟩

/-- Witness for C7 on the signed, suffixed line "M,-99999999999999999999xyz"
whose 20-digit run overflows a 32-bit int. -/
theorem C7_overflow_safe_witness :
    ∃ n : Int,
      parsearLinea ('M' :: ',' :: ((if true then ['-'] else []) ++
          (String.toList "99999999999999999999" ++ String.toList "xyz"))) =
        some (Trama.map n) ∧
      ∀ k : Nat, ∃ j, j < 26 ∧ rotar (alfabeto.rotate k) n = alfabeto.rotate j :=
  C7_overflow_safe true (String.toList "99999999999999999999") (String.toList "xyz")
    (by decide) (by decide)
    (by
      intro c hc
      simp only [show (String.toList "xyz").head? = some 'x' from rfl, Option.mem_def,
        Option.some.injEq] at hc
      subst hc
      decide)

/-- C8: on the line sequence I, L,A, M,1, L,A, FIN from the fresh session
state, the first L,A decodes to A, after rotating by one the second L,A
decodes to B, the final message renders as "AB", and the run terminates
at FIN: any lines after FIN leave the result unchanged. -/
theorem C8_end_to_end :
    getMapeo alfabeto 'A' = 'A' ∧
    getMapeo (rotar alfabeto 1) 'A' = 'B' ∧
    corre [String.toList "I", String.toList "L,A", String.toList "M,1",
        String.toList "L,A", String.toList "FIN"] sesionInicial =
      { carga := String.toList "AB", rotor := alfabeto.rotate 1 } ∧
    imprimirMensaje (corre [String.toList "I", String.toList "L,A", String.toList "M,1",
        String.toList "L,A", String.toList "FIN"] sesionInicial).carga = "AB" ∧
    ∀ extra : List (List Char),
      corre ([String.toList "I", String.toList "L,A", String.toList "M,1",
          String.toList "L,A", String.toList "FIN"] ++ extra) sesionInicial =
        corre [String.toList "I", String.toList "L,A", String.toList "M,1",
          String.toList "L,A", String.toList "FIN"] sesionInicial :=
  ⟨by decide, by decide, by decide, by decide, fun extra => rfl⟩

/-- C9: appending characters one by one to the empty payload and rendering
gives exactly the appended sequence in order, and rendering the empty
payload gives the empty string (render is total, so safe at any time). -/
theorem C9_append_render (cs : List Char) :
    imprimirMensaje (cs.foldl insertarAlFinal []) = String.mk cs ∧
    imprimirMensaje [] = "" := by
  constructor
  · rw [foldl_insertarAlFinal cs []]
    rfl
  · rfl

/-- C10 as stated is false on digit runs that overflow: in the line
"M,2147483648a" the leading digit run has value 2^31, but the parser
returns the 32-bit wrapped value -2^31, not the signed value of the run,
so the parsed frame differs from the claimed one. -/
theorem C10_suffix_counterexample :
    parsearLinea (String.toList "M,2147483648a") ≠ some (Trama.map 2147483648) ∧
    parsearLinea (String.toList "M,2147483648a") = some (Trama.map (-2147483648)) := by
  decide

/-- C10 (amended): for every M line made of an optional single minus sign,
a nonempty digit run whose value fits a 32-bit int, and a nonempty
trailing suffix beginning with a non-digit, parse succeeds and returns the
rotation frame with the signed value of the digit run, ignoring the
suffix. -/
theorem C10_trailing_suffix (neg : Bool) (ds resto : List Char) (h1 : ds ≠ [])
    (h2 : ∀ c ∈ ds, '0'.toNat ≤ c.toNat ∧ c.toNat ≤ '9'.toNat)
    (h3 : ∀ c ∈ resto.head?, ¬('0'.toNat ≤ c.toNat ∧ c.toNat ≤ '9'.toNat))
    (h4 : resto ≠ [])
    (h5 : natVal ds < 2 ^ 31) :
    parsearLinea ('M' :: ',' :: ((if neg then ['-'] else []) ++ (ds ++ resto))) =
      some (Trama.map ((if neg then (-1 : Int) else 1) * (natVal ds : Int))) := by
  have hval : ds.foldl (fun a c => wrap32 (a * 10 + ((c.toNat : Int) - ('0'.toNat : Int)))) 0 =
      ((natVal ds : Nat) : Int) := by
    have h := foldl_wrap_eq_natVal ds 0 h2 h5
    simpa [natVal] using h
  cases neg with
  | false =>
    have hno : ¬(false = true) := by decide
    rw [if_neg hno, if_neg hno, List.nil_append]
    rw [parsearLinea_M_pos ds resto h1 h2 h3]
    rw [hval, wrap32_eq (by omega) (by omega), one_mul]
  | true =>
    rw [if_pos rfl, if_pos rfl, List.singleton_append]
    rw [parsearLinea_M_neg ds resto h1 h2 h3]
    rw [hval, show ((natVal ds : Nat) : Int) * -1 = -1 * ((natVal ds : Nat) : Int) from
      mul_comm _ _]
    rw [wrap32_eq (by omega) (by omega)]

/-- Witness for C10 (amended) on the line "M,5abc". -/
theorem C10_trailing_suffix_witness :
    parsearLinea ('M' :: ',' :: ((if false then ['-'] else []) ++
        (String.toList "5" ++ String.toList "abc"))) =
      some (Trama.map ((if false then (-1 : Int) else 1) * (natVal (String.toList "5") : Int))) :=
  C10_trailing_suffix false (String.toList "5") (String.toList "abc") (by decide) (by decide)
    (by
      intro c hc
      simp only [show (String.toList "abc").head? = some 'a' from rfl, Option.mem_def,
        Option.some.injEq] at hc
      subst hc
      decide)
    (by decide) (by decide)
